import Mathlib

/-!
# Verification of the jar-viewer MCP server core

Shallow embedding of the core functions of the `jar-viewer-mcp` repository
(`src/index.ts` and its extended snapshot): archive-entry path normalization,
archive listing, build-output parsers, project-type detection, and the
dependency scanner with its cache.  Strings are modelled by Lean `String`
(UTF-8 text); character-level operations mirror the JavaScript regular
expressions used by the source.
-/

namespace JarViewer

/-- A character the entry normalizer treats as a separator to strip at the
front: `/` or `\` (the class `[/\\]` in the source regex). -/
def isEntrySep (c : Char) : Bool := c = '/' || c = '\\'

/-- Embeds `p.replace(/^[/\\]+/, "")` — remove every leading slash or backslash. -/
def stripLeadingSlashes (l : List Char) : List Char := l.dropWhile isEntrySep

/-- Embeds `.replace(/\\/g, "/")` — convert every backslash to a forward slash. -/
def backslashToSlash (l : List Char) : List Char :=
  l.map (fun c => if c = '\\' then '/' else c)

/-- Embeds `.replace(/\/+/g, "/")` — collapse each run of slashes to a single one. -/
def collapseSlashes : List Char → List Char
  | [] => []
  | [c] => [c]
  | c :: d :: rest =>
    if c = '/' ∧ d = '/' then collapseSlashes (d :: rest)
    else c :: collapseSlashes (d :: rest)

/-- Embeds `.replace(/\/$/, "")` — drop a single trailing slash, if present. -/
def stripTrailingSlash (l : List Char) : List Char :=
  if l.getLast? = some '/' then l.dropLast else l

/-- Character-level body of `normalizeJarEntry` (src/index.ts line 97 /
part_001 line 110): the four chained `replace` calls. -/
def normalizeJarEntryChars (l : List Char) : List Char :=
  stripTrailingSlash (collapseSlashes (backslashToSlash (stripLeadingSlashes l)))

/-- Embeds `normalizeJarEntry` from the source.  The `if (!p) return ""` branch for
an absent/empty argument is subsumed: the chain maps `""` to `""`. -/
def normalizeJarEntry (p : String) : String := ⟨normalizeJarEntryChars p.data⟩

/-- Returns true when the list has no two adjacent forward slashes. -/
def noDupSlash : List Char → Bool
  | [] => true
  | [_] => true
  | c :: d :: rest => !(c = '/' && d = '/') && noDupSlash (d :: rest)

theorem head_stripLeadingSlashes (l : List Char) (c : Char)
    (h : (stripLeadingSlashes l).head? = some c) : isEntrySep c = false := by
  induction l with
  | nil => simp [stripLeadingSlashes] at h
  | cons a t ih =>
    by_cases ha : isEntrySep a
    · exact ih (by simpa [stripLeadingSlashes, List.dropWhile, ha] using h)
    · simp [stripLeadingSlashes, List.dropWhile, ha] at h
      rw [← h]
      simpa using ha

theorem not_backslash_mem_backslashToSlash (l : List Char) :
    '\\' ∉ backslashToSlash l := by
  intro h
  rcases List.mem_map.mp h with ⟨a, _, ha⟩
  by_cases hb : a = '\\' <;> simp [hb] at ha

theorem head?_backslashToSlash (l : List Char) :
    (backslashToSlash l).head? = l.head?.map (fun c => if c = '\\' then '/' else c) := by
  cases l <;> simp [backslashToSlash]

theorem head?_collapseSlashes (l : List Char) :
    (collapseSlashes l).head? = l.head? := by
  induction l with
  | nil => simp [collapseSlashes]
  | cons a t ih =>
    cases t with
    | nil => simp [collapseSlashes]
    | cons b r =>
      by_cases h : a = '/' ∧ b = '/'
      · rw [collapseSlashes, if_pos h]
        rw [ih]
        simp [h.1, h.2]
      · rw [collapseSlashes, if_neg h]
        simp

theorem mem_collapseSlashes {a : Char} : ∀ {l : List Char},
    a ∈ collapseSlashes l → a ∈ l := by
  intro l
  induction l with
  | nil => simp [collapseSlashes]
  | cons c t ih =>
    cases t with
    | nil => simp [collapseSlashes]
    | cons d r =>
      by_cases h : c = '/' ∧ d = '/'
      · rw [collapseSlashes, if_pos h]
        intro hm
        exact List.mem_cons_of_mem _ (ih hm)
      · rw [collapseSlashes, if_neg h]
        intro hm
        rcases List.mem_cons.mp hm with h1 | h1
        · exact h1 ▸ List.mem_cons_self _ _
        · exact List.mem_cons_of_mem _ (ih h1)

theorem noDupSlash_collapseSlashes : ∀ l : List Char,
    noDupSlash (collapseSlashes l) = true
  | [] => by simp [collapseSlashes, noDupSlash]
  | [c] => by simp [collapseSlashes, noDupSlash]
  | c :: d :: rest => by
    by_cases h : c = '/' ∧ d = '/'
    · rw [collapseSlashes, if_pos h]
      exact noDupSlash_collapseSlashes (d :: rest)
    · rw [collapseSlashes, if_neg h]
      have ih := noDupSlash_collapseSlashes (d :: rest)
      have hd : (collapseSlashes (d :: rest)).head? = some d := by
        rw [head?_collapseSlashes]; rfl
      cases hc : collapseSlashes (d :: rest) with
      | nil => simp [noDupSlash]
      | cons e xs =>
        have he : e = d := by rw [hc] at hd; simpa using hd
        rw [hc] at ih
        have hcd : ¬(c = '/' ∧ e = '/') := fun hx => h ⟨hx.1, he ▸ hx.2⟩
        rw [noDupSlash]
        have hb : (decide (c = '/') && decide (e = '/')) = false := by
          by_cases h1 : c = '/'
          · by_cases h2 : e = '/'
            · exact absurd ⟨h1, h2⟩ hcd
            · simp [h2]
          · simp [h1]
        rw [hb]
        simpa using ih

theorem collapseSlashes_eq_self : ∀ l : List Char,
    noDupSlash l = true → collapseSlashes l = l
  | [] => by simp [collapseSlashes]
  | [c] => by simp [collapseSlashes]
  | c :: d :: rest => by
    intro h
    rw [noDupSlash] at h
    simp only [Bool.and_eq_true, Bool.not_eq_true'] at h
    have hne : ¬(c = '/' ∧ d = '/') := by
      intro hcd
      simp [hcd.1, hcd.2] at h
    rw [collapseSlashes, if_neg hne,
      collapseSlashes_eq_self (d :: rest) h.2]

theorem noDupSlash_dropLast : ∀ l : List Char,
    noDupSlash l = true → noDupSlash l.dropLast = true
  | [] => by simp
  | [c] => by simp [noDupSlash]
  | [c, d] => by
    intro _
    simp [noDupSlash]
  | c :: d :: e :: rest => by
    intro h
    rw [noDupSlash] at h
    simp only [Bool.and_eq_true, Bool.not_eq_true'] at h
    have ih := noDupSlash_dropLast (d :: e :: rest) h.2
    have hd : (d :: e :: rest).dropLast = d :: (e :: rest).dropLast := by
      simp [List.dropLast]
    rw [show (c :: d :: e :: rest).dropLast = c :: (d :: e :: rest).dropLast by
      simp [List.dropLast]]
    rw [hd] at ih ⊢
    rw [noDupSlash]
    simp only [Bool.and_eq_true, Bool.not_eq_true']
    exact ⟨h.1, ih⟩

theorem getLast?_dropLast_ne_slash : ∀ l : List Char,
    noDupSlash l = true → l.getLast? = some '/' →
    l.dropLast.getLast? ≠ some '/'
  | [] => by simp
  | [c] => by
    intro _ _
    simp
  | c :: d :: rest => by
    intro hnd hlast
    rw [noDupSlash] at hnd
    simp only [Bool.and_eq_true, Bool.not_eq_true'] at hnd
    cases rest with
    | nil =>
      have hd : d = '/' := by simpa using hlast
      have hc : c ≠ '/' := by
        intro hc
        simp [hc, hd] at hnd
      simpa using hc
    | cons e rs =>
      have hlast2 : (d :: e :: rs).getLast? = some '/' := by
        simpa [List.getLast?_cons_cons] using hlast
      have ih := getLast?_dropLast_ne_slash (d :: e :: rs) hnd.2 hlast2
      have hd1 : (d :: e :: rs).dropLast = d :: (e :: rs).dropLast := by
        simp [List.dropLast]
      rw [show (c :: d :: e :: rs).dropLast = c :: d :: (e :: rs).dropLast by
        simp [List.dropLast]]
      rw [hd1] at ih
      cases rs2 : (e :: rs).dropLast with
      | nil =>
        rw [rs2] at ih
        simpa using ih
      | cons x xs =>
        rw [rs2] at ih
        intro hcontra
        apply ih
        rw [List.getLast?_cons_cons] at hcontra
        exact hcontra

theorem dropWhile_eq_self_of_head {p : Char → Bool} {l : List Char}
    (h : ∀ c, l.head? = some c → p c = false) : l.dropWhile p = l := by
  cases l with
  | nil => rfl
  | cons a t =>
    have := h a rfl
    simp [List.dropWhile, this]

theorem backslashToSlash_eq_self : ∀ l : List Char,
    '\\' ∉ l → backslashToSlash l = l
  | [] => fun _ => rfl
  | a :: t => fun h => by
    have ha : a ≠ '\\' := fun he => h (by simp [he])
    have ht : '\\' ∉ t := fun hm => h (List.mem_cons_of_mem _ hm)
    rw [backslashToSlash, List.map_cons, if_neg ha]
    show a :: backslashToSlash t = a :: t
    rw [backslashToSlash_eq_self t ht]

theorem head?_dropLast_imp {l : List Char} {c : Char}
    (h : l.dropLast.head? = some c) : l.head? = some c := by
  cases l with
  | nil => simp at h
  | cons a t =>
    cases t with
    | nil => simp at h
    | cons b r => simpa [List.dropLast] using h

theorem mem_dropLast {a : Char} : ∀ {l : List Char}, a ∈ l.dropLast → a ∈ l := by
  intro l
  induction l with
  | nil => simp
  | cons x t ih =>
    cases t with
    | nil => simp
    | cons y r =>
      intro h
      rw [show (x :: y :: r).dropLast = x :: (y :: r).dropLast by simp [List.dropLast]] at h
      rcases List.mem_cons.mp h with h1 | h1
      · exact h1 ▸ List.mem_cons_self _ _
      · exact List.mem_cons_of_mem _ (ih h1)

/-- Head of the normalized entry path is never a separator. -/
theorem head_normalized_not_sep (l : List Char) (c : Char)
    (h : (normalizeJarEntryChars l).head? = some c) : isEntrySep c = false := by
  unfold normalizeJarEntryChars at h
  set s1 := stripLeadingSlashes l with hs1
  set s2 := backslashToSlash s1 with hs2
  set s3 := collapseSlashes s2 with hs3
  have hh3 : s3.head? = some c := by
    unfold stripTrailingSlash at h
    split at h
    · exact head?_dropLast_imp h
    · exact h
  have hh2 : s2.head? = some c := by rw [hs3, head?_collapseSlashes] at hh3; exact hh3
  rw [hs2, head?_backslashToSlash] at hh2
  cases hx : s1.head? with
  | none => rw [hx] at hh2; simp at hh2
  | some a =>
    rw [hx] at hh2
    have ha : isEntrySep a = false := head_stripLeadingSlashes l a hx
    have hane : a ≠ '\\' := by
      intro he
      rw [he] at ha
      simp [isEntrySep] at ha
    simp [hane] at hh2
    rw [← hh2]
    exact ha

/-- The normalized entry path contains no backslash. -/
theorem backslash_not_mem_normalized (l : List Char) :
    '\\' ∉ normalizeJarEntryChars l := by
  unfold normalizeJarEntryChars stripTrailingSlash
  intro h
  have h2 : '\\' ∈ collapseSlashes (backslashToSlash (stripLeadingSlashes l)) := by
    split at h
    · exact mem_dropLast h
    · exact h
  exact not_backslash_mem_backslashToSlash _ (mem_collapseSlashes h2)

/-- The normalized entry path has no two adjacent slashes. -/
theorem noDupSlash_normalized (l : List Char) :
    noDupSlash (normalizeJarEntryChars l) = true := by
  unfold normalizeJarEntryChars stripTrailingSlash
  split
  · exact noDupSlash_dropLast _ (noDupSlash_collapseSlashes _)
  · exact noDupSlash_collapseSlashes _

/-- The normalized entry path never ends in a slash. -/
theorem getLast?_normalized_ne_slash (l : List Char) :
    (normalizeJarEntryChars l).getLast? ≠ some '/' := by
  unfold normalizeJarEntryChars stripTrailingSlash
  split
  · next hlast =>
    exact getLast?_dropLast_ne_slash _ (noDupSlash_collapseSlashes _) hlast
  · next hlast => exact hlast

theorem normalizeJarEntryChars_idem (l : List Char) :
    normalizeJarEntryChars (normalizeJarEntryChars l) = normalizeJarEntryChars l := by
  set t := normalizeJarEntryChars l with ht
  have h1 : stripLeadingSlashes t = t :=
    dropWhile_eq_self_of_head (fun c hc => head_normalized_not_sep l c hc)
  have h2 : backslashToSlash t = t :=
    backslashToSlash_eq_self t (backslash_not_mem_normalized l)
  have h3 : collapseSlashes t = t :=
    collapseSlashes_eq_self t (noDupSlash_normalized l)
  have h4 : stripTrailingSlash t = t := by
    unfold stripTrailingSlash
    rw [if_neg (getLast?_normalized_ne_slash l)]
  show stripTrailingSlash (collapseSlashes (backslashToSlash (stripLeadingSlashes t))) = t
  rw [h1, h2, h3, h4]

/-- C10: the archive-entry path normalization (strip leading slashes and
backslashes, convert backslashes to slashes, collapse repeated slashes,
strip one trailing slash) is idempotent: applying `normalizeJarEntry`
twice yields the same result as applying it once, for every input string. -/
theorem C10_normalizeJarEntry_idempotent (s : String) :
    normalizeJarEntry (normalizeJarEntry s) = normalizeJarEntry s := by
  unfold normalizeJarEntry
  exact congrArg String.mk (normalizeJarEntryChars_idem s.data)

/-! ## Archive listing (`JarViewerService.listJarEntries`) -/

/-- Embeds `MAX_LIST_ENTRIES` (src/index.ts line 17). -/
def MAX_LIST_ENTRIES : Nat := 100

/-- One entry of the archive listing (`JarEntrySummary` in the source). -/
structure JarEntrySummary where
  path : String
  directory : Bool
  size : Nat
  compressedSize : Nat
deriving DecidableEq, Repr

/-- One raw zip entry as surfaced by the `adm-zip` library: its name, its
directory flag, and the sizes from its header (`entry.header.size ?? 0`
defaulting is folded into the `Nat` fields). -/
structure ZipEntry where
  entryName : String
  isDirectory : Bool
  size : Nat
  compressedSize : Nat
deriving DecidableEq, Repr

/-- Result record of `listJarEntries` (`ListJarEntriesResult`). -/
structure ListJarEntriesResult where
  jarPath : String
  innerPath : String
  total : Nat
  truncated : Bool
  entries : List JarEntrySummary
deriving DecidableEq, Repr

/-- Splits a character list on `'/'`, like JavaScript `"a/b".split("/")`:
`"" ↦ [""]`, `"a/" ↦ ["a", ""]`, `"/a" ↦ ["", "a"]`. -/
def splitSlash : List Char → List (List Char)
  | [] => [[]]
  | c :: rest =>
    if c = '/' then [] :: splitSlash rest
    else
      match splitSlash rest with
      | [] => [[c]]
      | s :: ss => (c :: s) :: ss

/-- Accumulator of the entry loop: the `directories` map (a key-ordered,
deduplicated list of `head + "/"` keys, as a JS `Map` preserves first-insertion
order) and the `files` array. -/
structure FoldSt where
  directories : List String
  files : List JarEntrySummary
deriving DecidableEq, Repr

/-- Embeds `directories.set(head + "/", true)` on a JS `Map`: keep the first
insertion, append unseen keys at the end. -/
def addDirectory (dirs : List String) (d : String) : List String :=
  if d ∈ dirs then dirs else dirs ++ [d]

/-- One iteration of the `for (const entry of zip.getEntries())` loop:
normalize the name, apply the inner-path filter, compute the relative path,
and record either a synthetic directory key or a leaf entry. -/
def processZipEntry (inner : String) (st : FoldSt) (e : ZipEntry) : FoldSt :=
  let name := normalizeJarEntry e.entryName
  if name = "" then st
  else if inner ≠ "" ∧ (name = inner ∨ ¬((inner ++ "/").data.isPrefixOf name.data = true)) then st
  else
    let relChars : List Char :=
      if inner ≠ "" then (name.data.drop inner.length).dropWhile (fun c => c = '/')
      else name.data
    if relChars = [] then st
    else
      match splitSlash relChars with
      | [] => st
      | head :: rest =>
        if head = [] then st
        else if rest ≠ [] then
          { st with directories := addDirectory st.directories ⟨head ++ ['/']⟩ }
        else
          { st with files := st.files ++ [⟨⟨head⟩, e.isDirectory, e.size, e.compressedSize⟩] }

/-- The combined entry loop over all zip entries. -/
def collectEntries (zipEntries : List ZipEntry) (inner : String) : FoldSt :=
  zipEntries.foldl (processZipEntry inner) ⟨[], []⟩

/-- Lexicographic code-point comparison of character lists, the model of the
`localeCompare`-based comparator (they agree on the lowercase ASCII names
considered in this development). -/
def charListLe : List Char → List Char → Bool
  | [], _ => true
  | _ :: _, [] => false
  | a :: as, b :: bs =>
    if a.toNat < b.toNat then true
    else if b.toNat < a.toNat then false
    else charListLe as bs

theorem charListLe_total : ∀ l1 l2 : List Char,
    charListLe l1 l2 = true ∨ charListLe l2 l1 = true
  | [], l2 => by
    left
    cases l2 <;> rfl
  | a :: as, [] => by right; rfl
  | a :: as, b :: bs => by
    rcases Nat.lt_trichotomy a.toNat b.toNat with h | h | h
    · left
      simp [charListLe, h]
    · rcases charListLe_total as bs with h1 | h1
      · left
        simp [charListLe, h, h1]
      · right
        simp [charListLe, h.symm, h1]
    · right
      simp [charListLe, h]

theorem charListLe_trans : ∀ l1 l2 l3 : List Char,
    charListLe l1 l2 = true → charListLe l2 l3 = true → charListLe l1 l3 = true
  | [], l2, l3 => by
    intro _ _
    cases l3 <;> rfl
  | a :: as, [], l3 => by intro h _; simp [charListLe] at h
  | a :: as, b :: bs, [] => by intro _ h; simp [charListLe] at h
  | a :: as, b :: bs, c :: cs => by
    intro h1 h2
    rw [charListLe] at h1 h2 ⊢
    by_cases hab : a.toNat < b.toNat <;> by_cases hbc : b.toNat < c.toNat <;>
      simp [hab, hbc] at h1 h2 <;> simp
    · have : a.toNat < c.toNat := Nat.lt_trans hab hbc
      simp [this]
    · have : a.toNat < c.toNat := by
        have := h2.1
        omega
      simp [this]
    · have : a.toNat < c.toNat := by
        have := h1.1
        omega
      simp [this]
    · have h1a := h1.1
      have h2a := h2.1
      have hac : ¬ a.toNat < c.toNat := by omega
      have hca : ¬ c.toNat < a.toNat := by omega
      simp [hac, hca]
      exact ⟨by omega, charListLe_trans as bs cs h1.2 h2.2⟩

/-- Sorting relation of `.sort((a, b) => a.path.localeCompare(b.path))`. -/
def entryLe (a b : JarEntrySummary) : Prop :=
  charListLe a.path.data b.path.data = true

instance : DecidableRel entryLe := fun a b =>
  inferInstanceAs (Decidable (_ = true))

instance : IsTotal JarEntrySummary entryLe :=
  ⟨fun a b => charListLe_total a.path.data b.path.data⟩

instance : IsTrans JarEntrySummary entryLe :=
  ⟨fun _ b _ h1 h2 => charListLe_trans _ b.path.data _ h1 h2⟩

/-- JavaScript `Array.prototype.sort` is a stable sort; with the
path comparator it coincides with insertion sort by `entryLe`. -/
def sortEntries (l : List JarEntrySummary) : List JarEntrySummary :=
  l.insertionSort entryLe

/-- The merged, sorted entry list before truncation: synthetic directory
entries (zero sizes) together with leaf entries, sorted as one list. -/
def preTruncationEntries (zipEntries : List ZipEntry) (inner : String) :
    List JarEntrySummary :=
  let st := collectEntries zipEntries inner
  sortEntries (st.directories.map (fun d => ⟨d, true, 0, 0⟩) ++ st.files)

/-- Embeds `JarViewerService.listJarEntries` (src/index.ts lines 256-311), after the
jar file has been resolved and found to exist: the zip entries stand for
`zip.getEntries()` and `resolvedJar` for `path.resolve(jarPath)`. -/
def listJarEntries (resolvedJar : String) (zipEntries : List ZipEntry)
    (innerPath : String) : ListJarEntriesResult :=
  let normalizedInner := normalizeJarEntry innerPath
  let entries := preTruncationEntries zipEntries normalizedInner
  { jarPath := resolvedJar
    innerPath := if normalizedInner = "" then "/" else normalizedInner
    total := entries.length
    truncated := decide (entries.length > MAX_LIST_ENTRIES)
    entries := entries.take MAX_LIST_ENTRIES }

/-- C5: `listJarEntries` returns at most `MAX_LIST_ENTRIES` (100) entries;
its `truncated` flag is true exactly when the pre-truncation entry count
(the number of synthetic directories plus leaf records collected by the
entry loop) exceeds that maximum; and `total` equals that true count. -/
theorem C5_listJarEntries_truncation (jar inner : String)
    (zipEntries : List ZipEntry) :
    (listJarEntries jar zipEntries inner).entries.length ≤ MAX_LIST_ENTRIES
    ∧ ((listJarEntries jar zipEntries inner).truncated = true ↔
        MAX_LIST_ENTRIES <
          (collectEntries zipEntries (normalizeJarEntry inner)).directories.length +
          (collectEntries zipEntries (normalizeJarEntry inner)).files.length)
    ∧ (listJarEntries jar zipEntries inner).total =
        (collectEntries zipEntries (normalizeJarEntry inner)).directories.length +
        (collectEntries zipEntries (normalizeJarEntry inner)).files.length := by
  have hlen : (preTruncationEntries zipEntries (normalizeJarEntry inner)).length =
      (collectEntries zipEntries (normalizeJarEntry inner)).directories.length +
      (collectEntries zipEntries (normalizeJarEntry inner)).files.length := by
    unfold preTruncationEntries sortEntries
    rw [(List.perm_insertionSort entryLe _).length_eq]
    simp
  refine ⟨?_, ?_, ?_⟩
  · simpa [listJarEntries] using List.length_take_le _ _
  · simp [listJarEntries, hlen]
  · simpa [listJarEntries] using hlen

/-- C3 counterexample: on an archive with entries `a.txt`, `b/x`, `c.txt`
and no filter prefix, the source performs ONE combined sort over directory
and leaf entries, returning `[a.txt, b/, c.txt]` — not the
directories-before-files order `[b/, a.txt, c.txt]` the claim prescribes
(all synthetic directory entries sorted, followed by all leaf entries
sorted). -/
theorem C3_counterexample :
    (listJarEntries "app.jar"
        [⟨"a.txt", false, 1, 1⟩, ⟨"b/x", false, 2, 2⟩, ⟨"c.txt", false, 3, 3⟩]
        "").entries
      = [⟨"a.txt", false, 1, 1⟩, ⟨"b/", true, 0, 0⟩, ⟨"c.txt", false, 3, 3⟩]
    ∧ (listJarEntries "app.jar"
        [⟨"a.txt", false, 1, 1⟩, ⟨"b/x", false, 2, 2⟩, ⟨"c.txt", false, 3, 3⟩]
        "").entries
      ≠ [⟨"b/", true, 0, 0⟩, ⟨"a.txt", false, 1, 1⟩, ⟨"c.txt", false, 3, 3⟩] := by
  decide

/-- C3 amended: the entry list returned by `listJarEntries` is the synthetic
directory entries and the leaf entries merged into a SINGLE list sorted
lexicographically by path (so directory and leaf entries interleave),
truncated to the fixed maximum count: the returned list is pairwise sorted
by path, the pre-truncation list is a permutation of the directory entries
followed by the leaf records, and the result is its `MAX_LIST_ENTRIES`
prefix. -/
theorem C3_amended_single_sorted_listing (jar inner : String)
    (zipEntries : List ZipEntry) :
    (listJarEntries jar zipEntries inner).entries.Pairwise entryLe
    ∧ (preTruncationEntries zipEntries (normalizeJarEntry inner)).Perm
        ((collectEntries zipEntries (normalizeJarEntry inner)).directories.map
            (fun d => ⟨d, true, 0, 0⟩) ++
          (collectEntries zipEntries (normalizeJarEntry inner)).files)
    ∧ (listJarEntries jar zipEntries inner).entries =
        (preTruncationEntries zipEntries (normalizeJarEntry inner)).take
          MAX_LIST_ENTRIES := by
  refine ⟨?_, ?_, rfl⟩
  · have hs : (preTruncationEntries zipEntries (normalizeJarEntry inner)).Pairwise
        entryLe := by
      unfold preTruncationEntries sortEntries
      exact List.sorted_insertionSort entryLe _
    exact hs.sublist (List.take_sublist _ _)
  · unfold preTruncationEntries sortEntries
    exact List.perm_insertionSort entryLe _

/-- C4 counterexample: an archive containing the single entry `b/x`, listed
with no filter prefix, yields the synthetic directory entry `b/` — whose
path ends in a separator, contradicting the claim that no returned path has
a trailing separator. -/
theorem C4_counterexample :
    (listJarEntries "app.jar" [⟨"b/x", false, 1, 1⟩] "").entries
      = [⟨"b/", true, 0, 0⟩]
    ∧ ("b/".data.getLast? = some '/') := by decide

/-- Shape of a leaf entry path: non-empty and containing no separator at
all — in particular no leading and no trailing separator. -/
def leafShapeOk (s : String) : Bool :=
  decide (s.data ≠ []) && s.data.all (fun c => !(isEntrySep c))

/-- Shape of a synthetic directory entry path: a non-empty separator-free
segment followed by exactly one trailing `/` (the final slash is the only
separator in the path, so there is no leading separator and exactly one
trailing one). -/
def dirShapeOk (s : String) : Bool :=
  decide (s.data.getLast? = some '/') && decide (s.data.dropLast ≠ []) &&
    s.data.dropLast.all (fun c => !(isEntrySep c))

theorem mem_of_getLast? {l : List Char} {a : Char}
    (h : l.getLast? = some a) : a ∈ l := by
  induction l with
  | nil => simp at h
  | cons x t ih =>
    cases t with
    | nil =>
      simp at h
      simp [h]
    | cons y r =>
      rw [List.getLast?_cons_cons] at h
      exact List.mem_cons_of_mem _ (ih h)

theorem splitSlash_segment_no_slash : ∀ (l : List Char), ∀ seg ∈ splitSlash l,
    '/' ∉ seg := by
  intro l
  induction l with
  | nil =>
    intro seg hseg
    simp [splitSlash] at hseg
    simp [hseg]
  | cons c rest ih =>
    intro seg hseg
    by_cases hc : c = '/'
    · rw [splitSlash, if_pos hc] at hseg
      rcases List.mem_cons.mp hseg with h1 | h1
      · simp [h1]
      · exact ih seg h1
    · rw [splitSlash, if_neg hc] at hseg
      cases hs : splitSlash rest with
      | nil =>
        rw [hs] at hseg
        simp at hseg
        intro hmem
        rw [hseg] at hmem
        rcases List.mem_cons.mp hmem with h1 | h1
        · exact hc h1.symm
        · simp at h1
      | cons s ss =>
        rw [hs] at hseg
        rcases List.mem_cons.mp hseg with h1 | h1
        · intro hmem
          rw [h1] at hmem
          rcases List.mem_cons.mp hmem with h2 | h2
          · exact hc h2.symm
          · exact ih s (hs ▸ List.mem_cons_self _ _) h2
        · exact ih seg (hs ▸ List.mem_cons_of_mem _ h1)

theorem splitSlash_segment_subset : ∀ (l : List Char), ∀ seg ∈ splitSlash l,
    ∀ c ∈ seg, c ∈ l := by
  intro l
  induction l with
  | nil =>
    intro seg hseg
    simp [splitSlash] at hseg
    simp [hseg]
  | cons a rest ih =>
    intro seg hseg c hc
    by_cases ha : a = '/'
    · rw [splitSlash, if_pos ha] at hseg
      rcases List.mem_cons.mp hseg with h1 | h1
      · rw [h1] at hc
        simp at hc
      · exact List.mem_cons_of_mem _ (ih seg h1 c hc)
    · rw [splitSlash, if_neg ha] at hseg
      cases hs : splitSlash rest with
      | nil =>
        rw [hs] at hseg
        simp at hseg
        rw [hseg] at hc
        rcases List.mem_cons.mp hc with h1 | h1
        · exact h1 ▸ List.mem_cons_self _ _
        · simp at h1
      | cons s ss =>
        rw [hs] at hseg
        rcases List.mem_cons.mp hseg with h1 | h1
        · rw [h1] at hc
          rcases List.mem_cons.mp hc with h2 | h2
          · exact h2 ▸ List.mem_cons_self _ _
          · exact List.mem_cons_of_mem _
              (ih s (hs ▸ List.mem_cons_self _ _) c h2)
        · exact List.mem_cons_of_mem _
            (ih seg (hs ▸ List.mem_cons_of_mem _ h1) c hc)

/-- Invariant carried through the entry loop: collected synthetic directory
keys have the directory shape, collected leaf records the leaf shape. -/
def foldStOk (st : FoldSt) : Prop :=
  (∀ d ∈ st.directories, dirShapeOk d = true) ∧
  (∀ f ∈ st.files, leafShapeOk f.path = true)

theorem leafShapeOk_of_clean_segment {seg : List Char} (hne : seg ≠ [])
    (hsl : '/' ∉ seg) (hbs : '\\' ∉ seg) : leafShapeOk ⟨seg⟩ = true := by
  unfold leafShapeOk
  simp only [Bool.and_eq_true, decide_eq_true_eq, List.all_eq_true]
  refine ⟨hne, ?_⟩
  intro c hc
  have h1 : c ≠ '/' := fun h => hsl (h ▸ hc)
  have h2 : c ≠ '\\' := fun h => hbs (h ▸ hc)
  simp [isEntrySep, h1, h2]

theorem dirShapeOk_of_clean_segment {seg : List Char} (hne : seg ≠ [])
    (hsl : '/' ∉ seg) (hbs : '\\' ∉ seg) :
    dirShapeOk ⟨seg ++ ['/']⟩ = true := by
  unfold dirShapeOk
  simp only [List.getLast?_concat, List.dropLast_concat]
  simp only [Bool.and_eq_true, decide_eq_true_eq, List.all_eq_true]
  refine ⟨⟨by trivial, hne⟩, ?_⟩
  intro c hc
  have h1 : c ≠ '/' := fun h => hsl (h ▸ hc)
  have h2 : c ≠ '\\' := fun h => hbs (h ▸ hc)
  simp [isEntrySep, h1, h2]

theorem foldStOk_processZipEntry (inner : String) (st : FoldSt) (e : ZipEntry)
    (h : foldStOk st) : foldStOk (processZipEntry inner st e) := by
  rw [processZipEntry]
  simp only []
  set name := normalizeJarEntry e.entryName with hname
  by_cases h0 : name = ""
  · rw [if_pos h0]; exact h
  · rw [if_neg h0]
    by_cases h1 : inner ≠ "" ∧
        (name = inner ∨ ¬((inner ++ "/").data.isPrefixOf name.data = true))
    · rw [if_pos h1]; exact h
    · rw [if_neg h1]
      set relChars : List Char :=
        (if inner ≠ "" then (name.data.drop inner.length).dropWhile (fun c => c = '/')
         else name.data) with hrel
      have hrelsub : ∀ c ∈ relChars, c ∈ name.data := by
        intro c hc
        rw [hrel] at hc
        by_cases hi : inner ≠ ""
        · rw [if_pos hi] at hc
          exact (List.drop_sublist _ _).subset
            ((List.dropWhile_sublist _).subset hc)
        · rw [if_neg hi] at hc
          exact hc
      by_cases h2 : relChars = []
      · rw [if_pos h2]; exact h
      · rw [if_neg h2]
        cases hsplit : splitSlash relChars with
        | nil => exact h
        | cons head rest =>
          have hmem : head ∈ splitSlash relChars := by
            rw [hsplit]
            exact List.mem_cons_self _ _
          have hsl : '/' ∉ head := splitSlash_segment_no_slash relChars head hmem
          have hbs : '\\' ∉ head := fun hc =>
            backslash_not_mem_normalized e.entryName.data
              (hrelsub '\\' (splitSlash_segment_subset relChars head hmem '\\' hc))
          show foldStOk
            (if head = [] then st
             else if rest ≠ [] then
               { st with directories := addDirectory st.directories ⟨head ++ ['/']⟩ }
             else
               { st with files :=
                   st.files ++ [⟨⟨head⟩, e.isDirectory, e.size, e.compressedSize⟩] })
          by_cases h3 : head = []
          · rw [if_pos h3]; exact h
          · rw [if_neg h3]
            by_cases h4 : rest ≠ []
            · rw [if_pos h4]
              refine ⟨?_, h.2⟩
              intro d hd
              simp only [addDirectory] at hd
              split at hd
              · exact h.1 d hd
              · rcases List.mem_append.mp hd with hx | hx
                · exact h.1 d hx
                · have : d = ⟨head ++ ['/']⟩ := by simpa using hx
                  rw [this]
                  exact dirShapeOk_of_clean_segment h3 hsl hbs
            · rw [if_neg h4]
              refine ⟨h.1, ?_⟩
              intro f hf
              rcases List.mem_append.mp hf with hx | hx
              · exact h.2 f hx
              · have : f = ⟨⟨head⟩, e.isDirectory, e.size, e.compressedSize⟩ := by
                  simpa using hx
                rw [this]
                exact leafShapeOk_of_clean_segment h3 hsl hbs

theorem foldStOk_collectEntries (zipEntries : List ZipEntry) (inner : String) :
    foldStOk (collectEntries zipEntries inner) := by
  unfold collectEntries
  have h : ∀ st, foldStOk st → foldStOk (zipEntries.foldl (processZipEntry inner) st) := by
    induction zipEntries with
    | nil => intro st h; exact h
    | cons e t ih =>
      intro st h
      exact ih _ (foldStOk_processZipEntry inner st e h)
  exact h ⟨[], []⟩ ⟨by simp, by simp⟩

/-- C4 amended: every leaf record collected by the entry loop has a
non-empty path containing no separator at all (hence no leading and no
trailing separator), while every synthetic directory key consists of a
non-empty separator-free segment followed by exactly one trailing `/`
(their directory marker); consequently every entry returned by
`listJarEntries` — which draws from exactly these two pools — has one of
the two shapes, so is non-empty with no leading separator. -/
theorem C4_amended_leaf_dir_shape (jar inner : String)
    (zipEntries : List ZipEntry) :
    (∀ d ∈ (collectEntries zipEntries (normalizeJarEntry inner)).directories,
      dirShapeOk d = true)
    ∧ (∀ f ∈ (collectEntries zipEntries (normalizeJarEntry inner)).files,
      leafShapeOk f.path = true)
    ∧ (listJarEntries jar zipEntries inner).entries.all
        (fun e => leafShapeOk e.path || dirShapeOk e.path) = true := by
  have hok := foldStOk_collectEntries zipEntries (normalizeJarEntry inner)
  refine ⟨hok.1, hok.2, ?_⟩
  rw [List.all_eq_true]
  intro e he
  have hpre : e ∈ preTruncationEntries zipEntries (normalizeJarEntry inner) := by
    have : e ∈ (preTruncationEntries zipEntries (normalizeJarEntry inner)).take
        MAX_LIST_ENTRIES := he
    exact (List.take_sublist _ _).subset this
  have hperm := (by
    unfold preTruncationEntries sortEntries
    exact List.perm_insertionSort entryLe _ :
    (preTruncationEntries zipEntries (normalizeJarEntry inner)).Perm _)
  have hmem := hperm.subset hpre
  rcases List.mem_append.mp hmem with h1 | h1
  · rcases List.mem_map.mp h1 with ⟨d, hd, hde⟩
    have hds := hok.1 d hd
    rw [← hde]
    simp only [Bool.or_eq_true]
    right
    simpa using hds
  · simp only [Bool.or_eq_true]
    left
    exact hok.2 e h1

/-! ## Dependency-output parsers -/

/-- Splits a character list at `\r?\n` boundaries, like JavaScript
`output.split(/\r?\n/)` (a lone `\r` is not a separator). -/
def splitLinesChars : List Char → List (List Char)
  | [] => [[]]
  | '\r' :: '\n' :: rest => [] :: splitLinesChars rest
  | '\n' :: rest => [] :: splitLinesChars rest
  | c :: rest =>
    match splitLinesChars rest with
    | [] => [[c]]
    | s :: ss => (c :: s) :: ss

/-- Splits on a separator character, like JavaScript `String.prototype.split`
with a one-character separator. -/
def splitOnChar (sep : Char) : List Char → List (List Char)
  | [] => [[]]
  | c :: rest =>
    if c = sep then [] :: splitOnChar sep rest
    else
      match splitOnChar sep rest with
      | [] => [[c]]
      | s :: ss => (c :: s) :: ss

/-- Embeds `Array.prototype.join` with a one-character separator. -/
def joinWith (sep : Char) : List (List Char) → List Char
  | [] => []
  | [s] => s
  | s :: rest => s ++ sep :: joinWith sep rest

/-- Embeds `String.prototype.trim`: remove leading and trailing whitespace. -/
def trimChars (l : List Char) : List Char :=
  ((l.dropWhile Char.isWhitespace).reverse.dropWhile Char.isWhitespace).reverse

/-- Embeds `rawLine.replace(/^\[INFO\]\s+/, "")`: strip a leading `[INFO]` tag
together with the whitespace run that must follow it. -/
def stripInfoPrefix (l : List Char) : List Char :=
  if ("[INFO]".data).isPrefixOf l then
    match l.drop 6 with
    | c :: rest =>
      if c.isWhitespace then (c :: rest).dropWhile Char.isWhitespace else l
    | [] => l
  else l

/-- One resolved dependency record (`DependencyInfo` in the source). -/
structure DependencyInfo where
  groupId : String
  artifactId : String
  type : String
  classifier : Option String
  version : String
  scope : String
  path : String
deriving DecidableEq, Repr

/-- One line of the Maven `dependency:list` text output
(`parseMavenDependencyList` loop body, src/index.ts lines 520-545): strip the
log prefix, trim, skip blank / colon-free / separator / header lines, then
split on `:` and read path, scope, version, optional classifier, type and
artifact from the right; the remaining parts joined by `:` form the group. -/
def parseMavenLine (rawLine : List Char) : Option DependencyInfo :=
  let line := trimChars (stripInfoPrefix rawLine)
  if line = [] then none
  else if ¬ line.contains ':' then none
  else if ("---".data).isPrefixOf line then none
  else if ("The following".data).isPrefixOf line then none
  else
    let parts := splitOnChar ':' line
    let n := parts.length
    if n < 5 then none
    else
      let pathPart := (parts.get? (n - 1)).getD []
      let scope := (parts.get? (n - 2)).getD []
      let version := (parts.get? (n - 3)).getD []
      -- `parts.length > 3` is tested after three pops, i.e. when n > 6
      if n > 6 then
        some ⟨⟨joinWith ':' (parts.take (n - 6))⟩, ⟨(parts.get? (n - 6)).getD []⟩,
          ⟨(parts.get? (n - 5)).getD []⟩, some ⟨(parts.get? (n - 4)).getD []⟩,
          ⟨version⟩, ⟨scope⟩, ⟨pathPart⟩⟩
      else
        some ⟨⟨joinWith ':' (parts.take (n - 5))⟩, ⟨(parts.get? (n - 5)).getD []⟩,
          ⟨(parts.get? (n - 4)).getD []⟩, none,
          ⟨version⟩, ⟨scope⟩, ⟨pathPart⟩⟩

/-- Embeds `parseMavenDependencyList`: one record per parseable line. -/
def parseMavenDependencyList (output : String) : List DependencyInfo :=
  (splitLinesChars output.data).filterMap parseMavenLine

/-- One parsed `MCP_DEP` line (`GradleDependencyEntry` in the source). -/
structure GradleDependencyEntry where
  configuration : String
  fileName : String
  filePath : String
deriving DecidableEq, Repr

/-- Embeds `parseGradleDependencyLine` (part_001 lines 780-788). -/
def parseGradleDependencyLine (line : List Char) : Option GradleDependencyEntry :=
  let parts := splitOnChar '|' line
  if parts.length < 4 then none
  else
    let configuration := trimChars ((parts.get? 1).getD [])
    let fileName := trimChars ((parts.get? 2).getD [])
    let filePath := trimChars (joinWith '|' (parts.drop 3))
    if configuration = [] ∨ fileName = [] ∨ filePath = [] then none
    else some ⟨⟨configuration⟩, ⟨fileName⟩, ⟨filePath⟩⟩

/-- The final path segment, as Node's `path` helpers see it (split on the
POSIX separator). -/
def lastSegment (l : List Char) : List Char :=
  (splitOnChar '/' l).getLastD []

/-- Embeds `path.extname`: the suffix of the basename from its last `.`; empty when
there is no dot or when the only dot leads the basename. -/
def extnameChars (l : List Char) : List Char :=
  match lastSegment l with
  | [] => []
  | b0 :: rest =>
    let rev := rest.reverse
    let pre := rev.takeWhile (fun c => c ≠ '.')
    if pre.length < rest.length then '.' :: pre.reverse
    else if b0 = '.' then []
    else []

/-- Embeds `path.basename(p, ext)`: the final segment, with the given extension
suffix removed when it is a proper suffix. -/
def basenameChars (l : List Char) (ext : List Char) : List Char :=
  let base := lastSegment l
  if ext ≠ [] ∧ ext.isSuffixOf base ∧ base ≠ ext then
    base.take (base.length - ext.length)
  else base

/-- Coordinates recovered from a Gradle cache path (`GradleCacheCoords`). -/
structure GradleCacheCoords where
  groupId : String
  artifactId : String
  version : String
  classifier : Option String
deriving DecidableEq, Repr

/-- First index at which `pat` occurs as a contiguous substring
(JavaScript `String.prototype.indexOf`). -/
def indexOfSubstring (pat : List Char) : List Char → Option Nat
  | [] => if pat.isPrefixOf ([] : List Char) then some 0 else none
  | c :: rest =>
    if pat.isPrefixOf (c :: rest) then some 0
    else (indexOfSubstring pat rest).map (· + 1)

/-- Embeds `parseGradleCachePath` (part_001 lines 819-840), on the POSIX platform
where `path.sep = '/'` (so the split/join normalization is the identity). -/
def parseGradleCachePath (filePath fileName : List Char) :
    Option GradleCacheCoords :=
  let marker := ("/modules-2/files-2.1/").data
  match indexOfSubstring marker filePath with
  | none => none
  | some i =>
    let rest := filePath.drop (i + marker.length)
    let parts := splitOnChar '/' rest
    if parts.length < 4 then none
    else
      let groupId := (parts.get? 0).getD []
      let artifactId := (parts.get? 1).getD []
      let version := (parts.get? 2).getD []
      if groupId = [] ∨ artifactId = [] ∨ version = [] then none
      else
        let ext := extnameChars fileName
        let baseName := basenameChars fileName ext
        let pref := artifactId ++ '-' :: version
        let classifier :=
          if (pref ++ ['-']).isPrefixOf baseName then
            some (⟨baseName.drop (pref.length + 1)⟩ : String)
          else none
        some ⟨⟨groupId⟩, ⟨artifactId⟩, ⟨version⟩, classifier⟩

/-- Embeds `buildGradleDependencyInfo` (part_001 lines 797-817). -/
def buildGradleDependencyInfo (entry : GradleDependencyEntry) : DependencyInfo :=
  let ext := extnameChars entry.fileName.data
  let typeChars := if ext.head? = some '.' then ext.drop 1 else ext
  let type : String := if typeChars = [] then "jar" else ⟨typeChars⟩
  let baseName := basenameChars entry.fileName.data ext
  let cacheCoords := parseGradleCachePath entry.filePath.data entry.fileName.data
  let groupId := (cacheCoords.map (·.groupId)).getD "unknown"
  let artifactId := (cacheCoords.map (·.artifactId)).getD
    (if baseName = [] then "unknown" else ⟨baseName⟩)
  let version := (cacheCoords.map (·.version)).getD "unknown"
  let classifier := (cacheCoords.map (·.classifier)).getD none
  ⟨groupId, artifactId, type, classifier, version, entry.configuration,
    entry.filePath⟩

/-- Embeds `dependencies.set(entry.filePath, ...)` guarded by
`dependencies.has(entry.filePath)` on a JS `Map`: appends unseen absolute
paths, keeping the first-seen record. -/
def insertGradleEntry (acc : List GradleDependencyEntry)
    (e : GradleDependencyEntry) : List GradleDependencyEntry :=
  if acc.any (fun a => a.filePath = e.filePath) then acc else acc ++ [e]

/-- Embeds `parseGradleDependencyOutput` (part_001 lines 764-778). -/
def parseGradleDependencyOutput (output : String) : List DependencyInfo :=
  (((splitLinesChars output.data).filterMap (fun raw =>
      let line := trimChars raw
      if ("MCP_DEP|".data).isPrefixOf line then parseGradleDependencyLine line
      else none)).foldl insertGradleEntry []).map buildGradleDependencyInfo

/-- C2 counterexample: the Maven text-output parser does NOT deduplicate —
feeding it an input consisting of two identical dependency lines yields two
identical records (and hence a scan result in which `absolutePath` is not
unique), contradicting the claim that either parser yields exactly one
record for duplicated lines. -/
theorem C2_counterexample :
    parseMavenDependencyList "g:a:jar:1.0:compile:/x\ng:a:jar:1.0:compile:/x"
    = [⟨"g", "a", "jar", none, "1.0", "compile", "/x"⟩,
       ⟨"g", "a", "jar", none, "1.0", "compile", "/x"⟩] := by decide

theorem filePath_nodup_insertGradleEntry (acc : List GradleDependencyEntry)
    (e : GradleDependencyEntry)
    (h : (acc.map (fun a => a.filePath)).Nodup) :
    ((insertGradleEntry acc e).map (fun a => a.filePath)).Nodup := by
  unfold insertGradleEntry
  split
  · exact h
  · next hany =>
    rw [List.map_append]
    rw [List.nodup_append]
    refine ⟨h, by simp, ?_⟩
    intro x hx
    simp only [List.map_cons, List.map_nil, List.mem_singleton]
    intro he
    rcases List.mem_map.mp hx with ⟨a, ha, hax⟩
    apply hany
    simp only [List.any_eq_true, decide_eq_true_eq]
    exact ⟨a, ha, by rw [hax, he]⟩

theorem filePath_nodup_foldl (l : List GradleDependencyEntry) :
    ∀ acc, ((acc.map (fun a => a.filePath)).Nodup) →
    (((l.foldl insertGradleEntry acc).map (fun a => a.filePath)).Nodup) := by
  induction l with
  | nil => intro acc h; exact h
  | cons e t ih =>
    intro acc h
    exact ih _ (filePath_nodup_insertGradleEntry acc e h)

/-- C2 amended: only the Gradle delimited-line parser deduplicates by
absolute path: within one Gradle parse result every record's `path` is
unique, and two `MCP_DEP` lines with the same absolute path yield exactly
one record keeping the first-seen configuration; the Maven text-output
parser emits one record per parseable line, preserving duplicates. -/
theorem C2_amended_gradle_dedup_only :
    (∀ output : String,
      ((parseGradleDependencyOutput output).map (fun d => d.path)).Nodup)
    ∧ parseGradleDependencyOutput "MCP_DEP|c1|f.jar|/p\nMCP_DEP|c2|f.jar|/p"
        = [⟨"unknown", "f", "jar", none, "unknown", "c1", "/p"⟩]
    ∧ (parseMavenDependencyList
        "g:a:jar:1.0:compile:/x\ng:a:jar:1.0:compile:/x").length = 2 := by
  refine ⟨?_, by decide, by decide⟩
  intro output
  unfold parseGradleDependencyOutput
  rw [List.map_map]
  have hpath : ∀ e : GradleDependencyEntry,
      (buildGradleDependencyInfo e).path = e.filePath := fun e => rfl
  have : ((fun d : DependencyInfo => d.path) ∘ buildGradleDependencyInfo) =
      (fun a : GradleDependencyEntry => a.filePath) := by
    funext e
    exact hpath e
  rw [this]
  exact filePath_nodup_foldl _ [] (by simp)

/-! ## Project-type detection (`detectProjectType`) -/

/-- Embeds `ProjectType` in the source ("native" is the no-project kind). -/
inductive ProjectType where
  | maven
  | gradle
  | native
deriving DecidableEq, Repr

/-- A directory is modelled by its path components listed deepest-first, so
`path.dirname` is `List.tail` and the filesystem root is `[]`. -/
abbrev Dir := List String

/-- The filesystem, as far as marker probing sees it: the set of
`(directory, fileName)` pairs for which `fileExists` holds. -/
structure FS where
  files : List (Dir × String)
deriving DecidableEq, Repr

/-- Embeds `fileExists(path.join(dir, marker))`. -/
def fileExists (fs : FS) (dir : Dir) (name : String) : Bool :=
  (dir, name) ∈ fs.files

/-- Embeds `ProjectDetection` in the source: kind, root (null when no project), and
the marker files found at the root. -/
structure ProjectDetection where
  type : ProjectType
  root : Option Dir
  markers : List String
deriving DecidableEq, Repr

/-- Embeds `findProjectMarkers` (src/index.ts lines 109-117): the sublist of the
given markers present in the directory. -/
def findProjectMarkers (fs : FS) (dir : Dir) (markers : List String) :
    List String :=
  markers.filter (fun m => fileExists fs dir m)

def mavenMarkers : List String := ["pom.xml"]

def gradleMarkers : List String :=
  ["build.gradle", "build.gradle.kts", "settings.gradle", "settings.gradle.kts"]

/-- The `while (true)` walk of `detectProjectType` (src/index.ts lines
129-145): probe Maven markers first, then Gradle markers, else move to the
parent directory; at the filesystem root (`parent === current`) stop with
kind "native".  With deepest-first components the parent step is `tail`, so
the recursion is structural. -/
def detectFrom (fs : FS) (current : Dir) : ProjectDetection :=
  let foundMaven := findProjectMarkers fs current mavenMarkers
  if foundMaven ≠ [] then ⟨.maven, some current, foundMaven⟩
  else
    let foundGradle := findProjectMarkers fs current gradleMarkers
    if foundGradle ≠ [] then ⟨.gradle, some current, foundGradle⟩
    else
      match current with
      | [] => ⟨.native, none, []⟩
      | _ :: parent => detectFrom fs parent
termination_by current.length
decreasing_by simp

/-- Embeds `detectProjectType` (src/index.ts lines 119-146): when the start path is
a file, begin from its containing directory. -/
def detectProjectType (fs : FS) (start : Dir) (isFile : Bool) :
    ProjectDetection :=
  detectFrom fs (if isFile then start.tail else start)

/-- C7: detection proceeds from the start directory upward and stops at the
closest directory holding a marker, with `pom.xml` taking priority in the
same directory.  Concretely (the spec's end-to-end scenario): if `pom.xml`
exists in the subdirectory `sub :: p` of a directory `p` that holds
`build.gradle` but no `pom.xml`, then detection started at the subdirectory
yields kind maven rooted there (the closest ancestor wins over the shallower
Gradle marker), and detection started at `p` yields kind gradle rooted at
`p`; moreover, in any directory holding `pom.xml`, detection immediately
yields kind maven rooted there regardless of any Gradle markers present. -/
theorem C7_detect_closest_ancestor_and_priority (fs : FS) (p : Dir)
    (sub : String)
    (h1 : fileExists fs (sub :: p) "pom.xml" = true)
    (h2 : fileExists fs p "build.gradle" = true)
    (h3 : fileExists fs p "pom.xml" = false) :
    (detectProjectType fs (sub :: p) false).type = .maven
    ∧ (detectProjectType fs (sub :: p) false).root = some (sub :: p)
    ∧ (detectProjectType fs p false).type = .gradle
    ∧ (detectProjectType fs p false).root = some p
    ∧ (∀ (fs' : FS) (d : Dir), fileExists fs' d "pom.xml" = true →
        (detectProjectType fs' d false).type = .maven
        ∧ (detectProjectType fs' d false).root = some d) := by
  have hmaven : ∀ (fs' : FS) (d : Dir), fileExists fs' d "pom.xml" = true →
      (detectProjectType fs' d false).type = .maven
      ∧ (detectProjectType fs' d false).root = some d := by
    intro fs' d hd
    have hfm : findProjectMarkers fs' d mavenMarkers = ["pom.xml"] := by
      simp [findProjectMarkers, mavenMarkers, hd]
    rw [show detectProjectType fs' d false = detectFrom fs' d from rfl]
    unfold detectFrom
    rw [hfm]
    simp
  refine ⟨(hmaven fs (sub :: p) h1).1, (hmaven fs (sub :: p) h1).2, ?_, ?_, hmaven⟩
  all_goals
    have hfm : findProjectMarkers fs p mavenMarkers = [] := by
      simp [findProjectMarkers, mavenMarkers, h3]
    have hfg : findProjectMarkers fs p gradleMarkers ≠ [] := by
      have hmem : "build.gradle" ∈ findProjectMarkers fs p gradleMarkers := by
        simp [findProjectMarkers, gradleMarkers, h2]
      intro hx
      rw [hx] at hmem
      simp at hmem
    rw [show detectProjectType fs p false = detectFrom fs p from rfl]
    unfold detectFrom
    rw [hfm]
    simp [hfg]

/-- Closed witness for C7 at a concrete two-level filesystem. -/
theorem C7_detect_closest_ancestor_and_priority_witness :
    (detectProjectType
        ⟨[(["proj"], "build.gradle"), (["sub", "proj"], "pom.xml")]⟩
        ["sub", "proj"] false).type = .maven
    ∧ (detectProjectType
        ⟨[(["proj"], "build.gradle"), (["sub", "proj"], "pom.xml")]⟩
        ["sub", "proj"] false).root = some ["sub", "proj"]
    ∧ (detectProjectType
        ⟨[(["proj"], "build.gradle"), (["sub", "proj"], "pom.xml")]⟩
        ["proj"] false).type = .gradle
    ∧ (detectProjectType
        ⟨[(["proj"], "build.gradle"), (["sub", "proj"], "pom.xml")]⟩
        ["proj"] false).root = some ["proj"] := by
  have h := C7_detect_closest_ancestor_and_priority
    ⟨[(["proj"], "build.gradle"), (["sub", "proj"], "pom.xml")]⟩
    ["proj"] "sub" (by decide) (by decide) (by decide)
  exact ⟨h.1, h.2.1, h.2.2.1, h.2.2.2.1⟩

/-- C8: the `ProjectDetection` record returned by detection satisfies the
invariant that the root is non-null exactly when the kind is not "native";
the "native" result always carries a null root and an empty marker list. -/
theorem C8_detect_root_iff_not_native (fs : FS) (start : Dir) (isFile : Bool) :
    ((detectProjectType fs start isFile).root.isSome ↔
      (detectProjectType fs start isFile).type ≠ .native)
    ∧ ((detectProjectType fs start isFile).type = .native →
      (detectProjectType fs start isFile).root = none
      ∧ (detectProjectType fs start isFile).markers = []) := by
  unfold detectProjectType
  generalize (if isFile then start.tail else start) = current
  induction current with
  | nil =>
    unfold detectFrom
    by_cases hm : findProjectMarkers fs [] mavenMarkers = []
    · by_cases hg : findProjectMarkers fs [] gradleMarkers = []
      · simp [hm, hg]
      · simp [hm, hg]
    · simp [hm]
  | cons d parent ih =>
    unfold detectFrom
    by_cases hm : findProjectMarkers fs (d :: parent) mavenMarkers = []
    · by_cases hg : findProjectMarkers fs (d :: parent) gradleMarkers = []
      · simpa [hm, hg] using ih
      · simp [hm, hg]
    · simp [hm]

/-! ## Dependency scanner and cache (`scanProjectDependencies`, part_001) -/

/-- Options of `scan_project_dependencies` after the destructuring defaults
(`excludeTransitive = false`, `includeLogTail = false`); `configurations`
and `query` stay optional. -/
structure ScanDependenciesOptions where
  excludeTransitive : Bool
  configurations : Option (List String)
  includeLogTail : Bool
  query : Option String
deriving DecidableEq, Repr

/-- Embeds `normalizeConfigurations` (part_001 lines 122-128): trim, drop empties,
deduplicate keeping first insertion (a JS `Set` preserves insertion order),
then sort with the `localeCompare` comparator. -/
def normalizeConfigurations (configurations : Option (List String)) :
    List String :=
  match configurations with
  | none => []
  | some cfgs =>
    if cfgs = [] then []
    else
      let cleaned := (cfgs.map (fun v => (⟨trimChars v.data⟩ : String))).filter
        (fun v => v.data ≠ [])
      let unique := cleaned.foldl
        (fun acc v => if v ∈ acc then acc else acc ++ [v]) []
      unique.insertionSort (fun a b => charListLe a.data b.data = true)

instance : DecidableRel (fun (a b : String) => charListLe a.data b.data = true) :=
  fun _ _ => inferInstanceAs (Decidable (_ = true))

/-- Embeds `normalizeQuery` (part_001 lines 130-135): `null` for an absent or
blank query, else the trimmed, lower-cased text. -/
def normalizeQuery (value : Option String) : Option String :=
  match value with
  | none => none
  | some v =>
    let trimmed := trimChars v.data
    if trimmed = [] then none
    else some ⟨trimmed.map Char.toLower⟩

/-- Embeds `String.prototype.includes`: containment as a contiguous substring. -/
def containsSubstring (hay needle : List Char) : Bool :=
  (indexOfSubstring needle hay).isSome

/-- Embeds `filterDependenciesByQuery` (part_001 lines 137-148): case-insensitive
substring match against `group:artifact` or the absolute path. -/
def filterDependenciesByQuery (dependencies : List DependencyInfo)
    (query : Option String) : List DependencyInfo :=
  match normalizeQuery query with
  | none => dependencies
  | some q =>
    dependencies.filter (fun dep =>
      let name := (dep.groupId.data ++ ':' :: dep.artifactId.data).map Char.toLower
      containsSubstring name q.data ||
        containsSubstring (dep.path.data.map Char.toLower) q.data)

/-- The dependency-cache key.  The source builds
`JSON.stringify({projectRoot, excludeTransitive, configurations,
includeLogTail})` — an injective serialization of exactly these four fields
in fixed order — so the key is modelled by the tuple itself
(`buildDependencyCacheKey`, part_001 lines 150-160).  `query` is not a
parameter of the key. -/
structure DependencyCacheKey where
  projectRoot : Dir
  excludeTransitive : Bool
  configurations : List String
  includeLogTail : Bool
deriving DecidableEq, Repr

def buildDependencyCacheKey (projectRoot : Dir)
    (opts : ScanDependenciesOptions) : DependencyCacheKey :=
  ⟨projectRoot, opts.excludeTransitive,
    normalizeConfigurations opts.configurations, opts.includeLogTail⟩

/-- Embeds `DependencyResult` in the source (`projectPath`/`projectRoot` are kept
as directory values; `logTail` optional). -/
structure DependencyResult where
  projectPath : Dir
  projectRoot : Option Dir
  projectType : ProjectType
  dependencies : List DependencyInfo
  cached : Bool
  logTail : Option String
deriving DecidableEq, Repr

/-- The `dependencyCache` `Map`: an insertion-ordered association list;
`set` is only ever called on a missing key, so it appends. -/
abbrev DependencyCache := List (DependencyCacheKey × DependencyResult)

def cacheGet (cache : DependencyCache) (key : DependencyCacheKey) :
    Option DependencyResult :=
  (cache.find? (fun kv => kv.1 = key)).map (·.2)

def cacheSet (cache : DependencyCache) (key : DependencyCacheKey)
    (value : DependencyResult) : DependencyCache :=
  cache ++ [(key, value)]

/-- Embeds `JarViewerService.scanProjectDependencies` (part_001 lines 526-583) as a
state-passing function.  The filesystem interactions already modelled
elsewhere enter as parameters: `projectInfo` is `detectProjectType`'s answer
for the resolved project path `resolvedProject`, and `runScan` stands for
the outcome of the dispatched `scanMavenDependencies` /
`scanGradleDependencies` call (which runs the external build tool on a cache
miss).  The `filteredDependencies === result.dependencies` shortcut in the
source only avoids re-allocating an identical record and is
value-transparent. -/
def scanProjectDependencies (cache : DependencyCache) (resolvedProject : Dir)
    (projectInfo : ProjectDetection) (opts : ScanDependenciesOptions)
    (runScan : Except String DependencyResult) :
    Except String (DependencyResult × DependencyCache) :=
  if projectInfo.type = .native then
    .error "No Maven or Gradle project detected at or above the project path."
  else
    let projectRoot := projectInfo.root.getD resolvedProject
    let cacheKey := buildDependencyCacheKey projectRoot opts
    match cacheGet cache cacheKey with
    | some cached =>
      .ok ({ cached with
              cached := true
              projectPath := resolvedProject
              projectRoot := some projectRoot
              projectType := projectInfo.type
              dependencies :=
                filterDependenciesByQuery cached.dependencies opts.query },
            cache)
    | none =>
      match runScan with
      | .error e => .error e
      | .ok result =>
        .ok ({ result with
                dependencies :=
                  filterDependenciesByQuery result.dependencies opts.query },
              cacheSet cache cacheKey result)

theorem cacheGet_cacheSet_self (cache : DependencyCache)
    (key : DependencyCacheKey) (r : DependencyResult)
    (h : cacheGet cache key = none) :
    cacheGet (cacheSet cache key r) key = some r := by
  unfold cacheGet cacheSet
  rw [List.find?_append]
  have hf : cache.find? (fun kv => kv.1 = key) = none := by
    cases hx : cache.find? (fun kv => kv.1 = key)
    · rfl
    · unfold cacheGet at h
      rw [hx] at h
      simp at h
  rw [hf]
  simp

/-- C1: the dependency-cache key is a function of exactly the resolved
project root, the `excludeTransitive` flag, the normalized (deduplicated,
sorted) configurations list and the `includeLogTail` flag — the text query
is not a parameter of the key.  Consequently, after a first cache-miss scan
whose external resolution succeeded with `r`, any second scan agreeing on
root and those normalized options (with an arbitrary `query`) hits the
cache without consulting the build tool, returns `cached = true`, and its
dependency list is the cached (full) list with only the query filter
re-applied. -/
theorem C1_cache_key_ignores_query
    (cache : DependencyCache) (resolvedProject resolvedProject2 : Dir)
    (projectInfo projectInfo2 : ProjectDetection)
    (et : Bool) (cfgs cfgs2 : Option (List String)) (ilt : Bool)
    (q1 q2 : Option String) (r : DependencyResult)
    (runScan2 : Except String DependencyResult)
    (hty : projectInfo.type ≠ .native)
    (hty2 : projectInfo2.type ≠ .native)
    (hroot : projectInfo2.root.getD resolvedProject2 =
      projectInfo.root.getD resolvedProject)
    (hcfg : normalizeConfigurations cfgs2 = normalizeConfigurations cfgs)
    (hmiss : cacheGet cache (buildDependencyCacheKey
      (projectInfo.root.getD resolvedProject) ⟨et, cfgs, ilt, q1⟩) = none) :
    buildDependencyCacheKey (projectInfo2.root.getD resolvedProject2)
        ⟨et, cfgs2, ilt, q2⟩
      = buildDependencyCacheKey (projectInfo.root.getD resolvedProject)
        ⟨et, cfgs, ilt, q1⟩
    ∧ scanProjectDependencies cache resolvedProject projectInfo
        ⟨et, cfgs, ilt, q1⟩ (.ok r)
      = .ok ({ r with dependencies :=
                filterDependenciesByQuery r.dependencies q1 },
             cacheSet cache (buildDependencyCacheKey
               (projectInfo.root.getD resolvedProject) ⟨et, cfgs, ilt, q1⟩) r)
    ∧ scanProjectDependencies
        (cacheSet cache (buildDependencyCacheKey
          (projectInfo.root.getD resolvedProject) ⟨et, cfgs, ilt, q1⟩) r)
        resolvedProject2 projectInfo2 ⟨et, cfgs2, ilt, q2⟩ runScan2
      = .ok ({ r with
                cached := true
                projectPath := resolvedProject2
                projectRoot := some (projectInfo.root.getD resolvedProject)
                projectType := projectInfo2.type
                dependencies := filterDependenciesByQuery r.dependencies q2 },
             cacheSet cache (buildDependencyCacheKey
               (projectInfo.root.getD resolvedProject) ⟨et, cfgs, ilt, q1⟩) r) := by
  have hkey : buildDependencyCacheKey (projectInfo2.root.getD resolvedProject2)
      ⟨et, cfgs2, ilt, q2⟩
      = buildDependencyCacheKey (projectInfo.root.getD resolvedProject)
      ⟨et, cfgs, ilt, q1⟩ := by
    unfold buildDependencyCacheKey
    rw [hroot, hcfg]
  have hkey2 : buildDependencyCacheKey (projectInfo.root.getD resolvedProject)
      ⟨et, cfgs2, ilt, q2⟩
      = buildDependencyCacheKey (projectInfo.root.getD resolvedProject)
      ⟨et, cfgs, ilt, q1⟩ := by
    unfold buildDependencyCacheKey
    rw [hcfg]
  have hget := cacheGet_cacheSet_self cache _ r hmiss
  refine ⟨hkey, ?_, ?_⟩
  · simp only [scanProjectDependencies, if_neg hty]
    rw [hmiss]
  · simp only [scanProjectDependencies, if_neg hty2]
    rw [hroot, hkey2, hget]

/-- C9: on a cache-miss scan that supplies a text query, the entry stored in
the dependency cache holds the full unfiltered dependency list (the query
filter only shapes the returned copy), so a subsequent scan with the same
root and options but no query returns every dependency. -/
theorem C9_cache_stores_unfiltered
    (cache : DependencyCache) (resolvedProject : Dir)
    (projectInfo : ProjectDetection)
    (et : Bool) (cfgs : Option (List String)) (ilt : Bool)
    (q : Option String) (r : DependencyResult)
    (runScan2 : Except String DependencyResult)
    (hty : projectInfo.type ≠ .native)
    (hmiss : cacheGet cache (buildDependencyCacheKey
      (projectInfo.root.getD resolvedProject) ⟨et, cfgs, ilt, q⟩) = none) :
    scanProjectDependencies cache resolvedProject projectInfo
        ⟨et, cfgs, ilt, q⟩ (.ok r)
      = .ok ({ r with dependencies :=
                filterDependenciesByQuery r.dependencies q },
             cacheSet cache (buildDependencyCacheKey
               (projectInfo.root.getD resolvedProject) ⟨et, cfgs, ilt, q⟩) r)
    ∧ cacheGet (cacheSet cache (buildDependencyCacheKey
        (projectInfo.root.getD resolvedProject) ⟨et, cfgs, ilt, q⟩) r)
        (buildDependencyCacheKey (projectInfo.root.getD resolvedProject)
          ⟨et, cfgs, ilt, q⟩) = some r
    ∧ scanProjectDependencies
        (cacheSet cache (buildDependencyCacheKey
          (projectInfo.root.getD resolvedProject) ⟨et, cfgs, ilt, q⟩) r)
        resolvedProject projectInfo ⟨et, cfgs, ilt, none⟩ runScan2
      = .ok ({ r with
                cached := true
                projectPath := resolvedProject
                projectRoot := some (projectInfo.root.getD resolvedProject)
                projectType := projectInfo.type },
             cacheSet cache (buildDependencyCacheKey
               (projectInfo.root.getD resolvedProject) ⟨et, cfgs, ilt, q⟩) r) := by
  have hkey : buildDependencyCacheKey (projectInfo.root.getD resolvedProject)
      ⟨et, cfgs, ilt, none⟩
      = buildDependencyCacheKey (projectInfo.root.getD resolvedProject)
      ⟨et, cfgs, ilt, q⟩ := rfl
  have hget := cacheGet_cacheSet_self cache _ r hmiss
  refine ⟨?_, hget, ?_⟩
  · simp only [scanProjectDependencies, if_neg hty]
    rw [hmiss]
  · simp only [scanProjectDependencies, if_neg hty]
    rw [hkey, hget]
    rfl

/-- Closed witness for C1 at a concrete empty cache and a Maven project. -/
theorem C1_cache_key_ignores_query_witness :
    buildDependencyCacheKey (["proj"] : Dir) ⟨false, none, false, some "x"⟩
      = buildDependencyCacheKey (["proj"] : Dir) ⟨false, none, false, none⟩ :=
  (C1_cache_key_ignores_query [] ["proj"] ["proj"]
    ⟨.maven, some ["proj"], ["pom.xml"]⟩ ⟨.maven, some ["proj"], ["pom.xml"]⟩
    false none none false none (some "x")
    ⟨["proj"], some ["proj"], .maven, [], false, none⟩ (.error "unused")
    (by decide) (by decide) rfl rfl (by decide)).1

/-! ## Decompilation fallback chain (`decompileWithCfr`, `tryJavapSignature`) -/

deriving instance DecidableEq for Except

/-- Provenance tier of a read result (`ReadJarResult.source`). -/
inductive ReadSource where
  | source
  | decompiled
  | resource
  | summary
deriving DecidableEq, Repr

/-- Embeds `ReadJarResult` in the source. -/
structure ReadJarResult where
  content : String
  entryPath : String
  source : ReadSource
deriving DecidableEq, Repr

/-- Exit status and captured streams of a completed subprocess
(`CommandResult`; `code` is `null` when the child was killed by a signal). -/
structure CmdResult where
  code : Option Int
  stdout : String
  stderr : String
deriving DecidableEq, Repr

/-- Outcome of a `runCommand` call: the spawn failed with `ENOENT`, failed
or threw with some other error message, or the process completed. -/
inductive SpawnOutcome where
  | enoent
  | errored (msg : String)
  | completed (r : CmdResult)
deriving DecidableEq, Repr

/-- Embeds `${code}` for a `number | null` exit code. -/
def codeToString : Option Int → String
  | none => "null"
  | some i => toString i

/-- Embeds `tryJavapSignature` (src/index.ts lines 427-441): any thrown error is
caught and mapped to `null`; a non-zero (or null) exit code yields `null`;
otherwise `stdout || stderr || null` (empty strings are falsy). -/
def tryJavapSignature (outcome : SpawnOutcome) : Option String :=
  match outcome with
  | .completed r =>
    if r.code ≠ some 0 then none
    else if r.stdout ≠ "" then some r.stdout
    else if r.stderr ≠ "" then some r.stderr
    else none
  | _ => none

/-- Embeds `decompileWithCfr` (src/index.ts lines 366-425) as a function of the
external outcomes: the CFR invocation result, the attempted read of the
expected output file (`null` on failure; the empty string is also falsy in
`if (!javaSource)`), and the javap invocation outcome.  The temp-directory
management is effect-only and elided. -/
def decompileWithCfr (entryPath : String) (cfr : SpawnOutcome)
    (javaSource : Option String) (javap : SpawnOutcome) :
    Except String ReadJarResult :=
  match cfr with
  | .enoent => .error "Java runtime (java) was not found on PATH."
  | .errored msg => .error msg
  | .completed r =>
    if r.code ≠ some 0 then
      .error ("CFR exited with code " ++ codeToString r.code ++ ": " ++
        (if r.stderr ≠ "" then r.stderr else r.stdout))
    else
      let src := javaSource.getD ""
      if src = "" then
        match tryJavapSignature javap with
        | some signature =>
          .ok ⟨"// javap signature fallback\n" ++ signature, entryPath, .summary⟩
        | none => .error ("CFR did not produce output for " ++ entryPath)
      else
        .ok ⟨"// Decompiled via CFR\n" ++ src,
          ⟨(entryPath.data.reverse.drop 6).reverse ++ ".java".data⟩, .decompiled⟩

/-- C6 counterexample: when the CFR invocation exits with a non-zero code,
`decompileWithCfr` fails immediately — the javap signature tier is never
attempted, even when it would succeed — contradicting the claim that every
decompilation-tier failure is absorbed and the signature tier tried next. -/
theorem C6_counterexample :
    decompileWithCfr "com/X.class" (.completed ⟨some 1, "", "boom"⟩) none
        (.completed ⟨some 0, "public class X", ""⟩)
      = .error "CFR exited with code 1: boom"
    ∧ tryJavapSignature (.completed ⟨some 0, "public class X", ""⟩)
      = some "public class X" := by decide

/-- C6 amended: only the decompilation-tier failure "CFR exited zero but
produced no (non-empty) output file" is absorbed, after which the signature
tier is attempted — succeeding with a `summary` result or failing with a
"CFR did not produce output" error that carries neither exit code nor
captured output.  A non-zero (or null) CFR exit fails immediately, without
attempting the signature tier, with an error naming the exit code and the
captured error output (stderr, or stdout when stderr is empty). -/
theorem C6_amended_fallback_policy (entryPath : String) (r : CmdResult)
    (javaSource : Option String) (javap : SpawnOutcome)
    (hfail : r.code ≠ some 0) :
    decompileWithCfr entryPath (.completed r) javaSource javap
      = .error ("CFR exited with code " ++ codeToString r.code ++ ": " ++
          (if r.stderr ≠ "" then r.stderr else r.stdout))
    ∧ (∀ (so se : String) (src : Option String) (sig : String),
        src.getD "" = "" → tryJavapSignature javap = some sig →
        decompileWithCfr entryPath (.completed ⟨some 0, so, se⟩) src javap
          = .ok ⟨"// javap signature fallback\n" ++ sig, entryPath, .summary⟩)
    ∧ (∀ (so se : String) (src : Option String),
        src.getD "" = "" → tryJavapSignature javap = none →
        decompileWithCfr entryPath (.completed ⟨some 0, so, se⟩) src javap
          = .error ("CFR did not produce output for " ++ entryPath)) := by
  refine ⟨?_, ?_, ?_⟩
  · simp only [decompileWithCfr, if_pos hfail]
  · intro so se src sig hsrc hsig
    simp only [decompileWithCfr]
    rw [if_neg (by simp), hsrc, if_pos rfl, hsig]
  · intro so se src hsrc hsig
    simp only [decompileWithCfr]
    rw [if_neg (by simp), hsrc, if_pos rfl, hsig]

/-- Closed witness for C6 at a concrete failing CFR run. -/
theorem C6_amended_fallback_policy_witness :
    decompileWithCfr "com/X.class" (.completed ⟨some 2, "out", "err"⟩) none
        .enoent
      = .error "CFR exited with code 2: err" :=
  (C6_amended_fallback_policy "com/X.class" ⟨some 2, "out", "err"⟩ none .enoent
    (by decide)).1

/-- Closed witness for C9 at a concrete empty cache and a Maven project. -/
theorem C9_cache_stores_unfiltered_witness :
    cacheGet (cacheSet []
        (buildDependencyCacheKey (["proj"] : Dir) ⟨false, none, false, some "q"⟩)
        ⟨["proj"], some ["proj"], .maven, [], false, none⟩)
      (buildDependencyCacheKey (["proj"] : Dir) ⟨false, none, false, some "q"⟩)
      = some ⟨["proj"], some ["proj"], .maven, [], false, none⟩ :=
  (C9_cache_stores_unfiltered [] ["proj"]
    ⟨.maven, some ["proj"], ["pom.xml"]⟩
    false none false (some "q")
    ⟨["proj"], some ["proj"], .maven, [], false, none⟩ (.error "unused")
    (by decide) (by decide)).2.1

end JarViewer
